import Mathlib

/-!
Shallow embedding of the wallet-data aggregation engine in
`src/services/solanaService.ts` of the solana-mobile-wallet-tracker
repository, together with theorems settling the specification claims.

JavaScript numbers are modelled as rationals (`ℚ`), raw token amounts as
naturals, nullable values as `Option`, fallible operations as `Except`,
and the outcomes of network calls as explicit oracle arguments.  Stateful
module-level caches are modelled by explicit state passing.
-/

/-- Base58 alphabet used by Solana addresses, in bs58 digit order
(matches the regex character class `[1-9A-HJ-NP-Za-km-z]` used by the
sanitization step and the `bs58` alphabet used by `PublicKey`). -/
def base58Chars : List Char :=
  ['1', '2', '3', '4', '5', '6', '7', '8', '9',
   'A', 'B', 'C', 'D', 'E', 'F', 'G', 'H',
   'J', 'K', 'L', 'M', 'N',
   'P', 'Q', 'R', 'S', 'T', 'U', 'V', 'W', 'X', 'Y', 'Z',
   'a', 'b', 'c', 'd', 'e', 'f', 'g', 'h', 'i', 'j', 'k',
   'm', 'n', 'o', 'p', 'q', 'r', 's', 't', 'u', 'v', 'w', 'x', 'y', 'z']

/-- Whether a character belongs to the base58 alphabet. -/
def isBase58Char (c : Char) : Bool :=
  decide (c ∈ base58Chars)

/-- Code points treated as whitespace by the JavaScript `String.trim`
(WhiteSpace and LineTerminator productions). -/
def jsWhitespaceCodes : List ℕ :=
  [0x9, 0xA, 0xB, 0xC, 0xD, 0x20, 0xA0, 0x1680,
   0x2000, 0x2001, 0x2002, 0x2003, 0x2004, 0x2005, 0x2006, 0x2007,
   0x2008, 0x2009, 0x200A, 0x2028, 0x2029, 0x202F, 0x205F, 0x3000, 0xFEFF]

/-- Whether a character is JavaScript whitespace. -/
def isJsWhitespace (c : Char) : Bool :=
  decide (c.toNat ∈ jsWhitespaceCodes)

/-- Model of the JavaScript `String.trim`: drop whitespace from both ends. -/
def jsTrim (l : List Char) : List Char :=
  ((l.dropWhile isJsWhitespace).reverse.dropWhile isJsWhitespace).reverse

/-- Entry-point sanitization
`address.trim().replace(/[^1-9A-HJ-NP-Za-km-z]/g, '')` performed by
`fetchSolBalance` and `fetchWalletData`. -/
def sanitizeAddress (s : String) : String :=
  ⟨(jsTrim s.data).filter isBase58Char⟩

/-- Big-endian value of a base58 digit string (digits outside the alphabet
never occur on the paths where this is used, since validation first checks
every character is in the alphabet). -/
def b58Nat (l : List Char) : ℕ :=
  l.foldl (fun acc c => acc * 58 + base58Chars.findIdx (· == c)) 0

/-- Number of bytes in the big-endian encoding of `n`, computed with
structural fuel.  `byteLenGo fuel n` equals the byte length whenever
`n < 256 ^ fuel`, which holds for every use below because a base58 string
of length `k` has value below `58 ^ k < 256 ^ k`. -/
def byteLenGo : ℕ → ℕ → ℕ
  | 0, _ => 0
  | fuel + 1, n => if n = 0 then 0 else byteLenGo fuel (n / 256) + 1

/-- Model of the `new PublicKey(address)` validation of `@solana/web3.js`:
the string must be pure base58 and its bs58 decoding (leading `'1'` digits
become leading zero bytes, the rest is the big-endian encoding of the
digit value) must be exactly 32 bytes. -/
def isValidSolanaAddress (s : String) : Bool :=
  s.data.all isBase58Char &&
    ((s.data.takeWhile (· == '1')).length +
      byteLenGo s.data.length (b58Nat s.data) == 32)

/-- Model of `mint.slice(0, 4) + '…'` (`shortenMint`). -/
def shortenMint (mint : String) : String :=
  ⟨mint.data.take 4 ++ ['…']⟩

/-- Model of `address.slice(0, n)`. -/
def strSlice (n : ℕ) (s : String) : String :=
  ⟨s.data.take n⟩

/-- The `LAMPORTS_PER_SOL` constant of `@solana/web3.js`. -/
def LAMPORTS_PER_SOL : ℚ := 1000000000

/-- Substring test used to model JavaScript `String.includes`. -/
def strIncludes (s pat : String) : Bool :=
  decide (pat.data <:+: s.data)

/-- Rate-limit error recognition of `withRetry`:
`msg.includes('429') || msg.includes('Too many requests') ||
msg.includes('Server responded with')`. -/
def is429 (msg : String) : Bool :=
  strIncludes msg "429" || strIncludes msg "Too many requests" ||
    strIncludes msg "Server responded with"

/-- Timeout error recognition of `withRetry`:
`msg.includes('timeout') || msg.includes('ETIMEDOUT')`. -/
def isTimeoutMsg (msg : String) : Bool :=
  strIncludes msg "timeout" || strIncludes msg "ETIMEDOUT"

/-- An error message is transient when it matches the rate-limit or the
timeout signature. -/
def isTransientMsg (msg : String) : Bool :=
  is429 msg || isTimeoutMsg msg

/-- Observable behaviour of one `withRetry` run: the final outcome, the
list of back-off sleeps performed (in order), and how many times the
wrapped operation was invoked. -/
structure RetryTrace (α : Type) where
  result : Except String α
  delays : List ℚ
  calls : ℕ

/-- Loop body of `withRetry`: `attempt` is the current 0-based attempt
index, `lastError` the last caught message, and the final argument is
structural fuel (the number of loop iterations still permitted;
`withRetry` starts it at `maxRetries + 1`, so the fuel-exhausted branch is
the unreachable `throw lastError` after the `for` loop).  The invocation
outcomes are supplied by the oracle `fn`, indexed by attempt. -/
def withRetryGo (fn : ℕ → Except String α) (maxRetries : ℕ) (baseDelay : ℚ)
    (attempt : ℕ) (lastError : String) : ℕ → RetryTrace α
  | 0 => ⟨.error lastError, [], 0⟩
  | fuel + 1 =>
    match fn attempt with
    | .ok v => ⟨.ok v, [], 1⟩
    | .error e =>
      if isTransientMsg e && decide (attempt < maxRetries) then
        let t := withRetryGo fn maxRetries baseDelay (attempt + 1) e fuel
        ⟨t.result, baseDelay * 2 ^ attempt :: t.delays, t.calls + 1⟩
      else ⟨.error e, [], 1⟩

/-- Model of `withRetry(fn, label, maxRetries = 2, baseDelay = 1500)`. -/
def withRetry (fn : ℕ → Except String α) (maxRetries : ℕ) (baseDelay : ℚ) :
    RetryTrace α :=
  withRetryGo fn maxRetries baseDelay 0 "" (maxRetries + 1)

/-- Default `maxRetries` of `withRetry`. -/
def DEFAULT_MAX_RETRIES : ℕ := 2

/-- Default `baseDelay` of `withRetry` (milliseconds). -/
def DEFAULT_BASE_DELAY : ℚ := 1500

/-- One pair (listing) in a DexScreener batch response, as read by
`fetchDexScreenerData` through optional chaining: `baseToken?.address`,
`baseToken?.name`, `baseToken?.symbol`, `parseFloat(priceUsd)`,
`liquidity?.usd`, `info?.imageUrl`, `priceChange?.h24`.  `priceUsd` is
`none` when `parseFloat` yields `NaN`. -/
structure DexPair where
  baseAddress : Option String
  baseName : Option String
  baseSymbol : Option String
  priceUsd : Option ℚ
  liquidityUsd : Option ℚ
  imageUrl : Option String
  change24h : Option ℚ
deriving DecidableEq

/-- The `DexScreenerToken` record cached per mint. -/
structure DexScreenerToken where
  name : String
  symbol : String
  priceUsd : ℚ
  logoUri : String
  change24h : ℚ
deriving DecidableEq

/-- Reported USD liquidity of a pair, `pair.liquidity?.usd ?? 0`. -/
def liqOf (p : DexPair) : ℚ :=
  p.liquidityUsd.getD 0

/-- Construction of the cached token record from the selected pair
(lines 176-182 of the source). -/
def mkDexToken (mint : String) (p : DexPair) : DexScreenerToken :=
  ⟨p.baseName.getD "Unknown",
   p.baseSymbol.getD (shortenMint mint),
   p.priceUsd.getD 0,
   p.imageUrl.getD "",
   p.change24h.getD 0⟩

/-- Model of JavaScript `Map.set`: replace the value in place if the key
is present, otherwise append the binding at the end (preserving the
insertion order of a JS `Map`). -/
def alSet (k : String) (v : α) : List (String × α) → List (String × α)
  | [] => [(k, v)]
  | (k', v') :: rest =>
    if k' = k then (k', v) :: rest else (k', v') :: alSet k v rest

/-- One step of the best-pair selection loop (lines 166-173): keep the
listing with the strictly greater reported liquidity per base-token
address; pairs without a base-token address are skipped. -/
def updateBest (acc : List (String × DexPair)) (p : DexPair) :
    List (String × DexPair) :=
  match p.baseAddress with
  | none => acc
  | some mint =>
    match acc.lookup mint with
    | none => alSet mint p acc
    | some q => if liqOf q < liqOf p then alSet mint p acc else acc

/-- The `bestPair` map built from one batch response: for each base-token
address, the listing with the greatest reported liquidity (first wins on
ties, because the comparison is strict). -/
def bestPairs (pairs : List DexPair) : List (String × DexPair) :=
  pairs.foldl updateBest []

/-- Application of one selected pair to the result and cache maps
(lines 175-185): both `dexCache` and `result` receive
`mkDexToken mint pair`. -/
def applyBest (maps : List (String × DexScreenerToken) × List (String × DexScreenerToken))
    (entry : String × DexPair) :
    List (String × DexScreenerToken) × List (String × DexScreenerToken) :=
  let tok := mkDexToken entry.1 entry.2
  (alSet entry.1 tok maps.1, alSet entry.1 tok maps.2)

/-- Split a list into consecutive chunks of size `n`, with structural
fuel; `chunksOf` supplies `l.length` as fuel, which is enough for every
`n ≥ 1`. -/
def chunksOfGo (n : ℕ) : ℕ → List α → List (List α)
  | 0, _ => []
  | fuel + 1, l => if l.isEmpty then [] else l.take n :: chunksOfGo n fuel (l.drop n)

/-- The batching loop bounds of `fetchDexScreenerData`
(`for (let i = 0; i < mints.length; i += BATCH_SIZE)`). -/
def chunksOf (n : ℕ) (l : List α) : List (List α) :=
  chunksOfGo n l.length l

/-- DexScreener batch size (30 addresses per request). -/
def DEX_BATCH_SIZE : ℕ := 30

/-- DexScreener cache TTL: 5 minutes in milliseconds.  Timestamps are
millisecond counts from `Date.now()`, hence integers. -/
def DEX_CACHE_TTL : ℤ := 5 * 60 * 1000

/-- Module-level DexScreener cache state: the per-mint cache map and the
single shared refresh timestamp. -/
structure DexCacheState where
  cache : List (String × DexScreenerToken)
  timestamp : ℤ
deriving DecidableEq

/-- Observable outcome of one `fetchDexScreenerData` run: the returned
result map, the cache state after the run, and the list of network batch
calls issued (each entry is the list of mints in one HTTP request; failed
requests are recorded too, since they were issued). -/
structure DexFetchResult where
  result : List (String × DexScreenerToken)
  state : DexCacheState
  calls : List (List String)
deriving DecidableEq

/-- The batch loop of `fetchDexScreenerData` (lines 152-189): for each
batch of mints issue one network call; on a response that is a pairs
array, select best pairs and write them to the result and cache maps; on
a failed fetch or a non-array response (`net` returns `none`), skip the
batch.  Returns the final result map, cache map, and the calls issued. -/
def processBatches (net : List String → Option (List DexPair)) :
    List (List String) →
    List (String × DexScreenerToken) × List (String × DexScreenerToken) →
    List (String × DexScreenerToken) × List (String × DexScreenerToken) × List (List String)
  | [], (r, c) => (r, c, [])
  | b :: bs, (r, c) =>
    match net b with
    | none =>
      let t := processBatches net bs (r, c)
      (t.1, t.2.1, b :: t.2.2)
    | some pairs =>
      let rc := (bestPairs pairs).foldl applyBest (r, c)
      let t := processBatches net bs rc
      (t.1, t.2.1, b :: t.2.2)

/-- The cache-backfill loop at lines 194-199: for every requested mint
not present in the result map, fall back to the cache entry if any. -/
def fillFromCache (c : List (String × DexScreenerToken))
    (mints : List String) (r : List (String × DexScreenerToken)) :
    List (String × DexScreenerToken) :=
  mints.foldl
    (fun r m =>
      if (r.lookup m).isSome then r
      else
        match c.lookup m with
        | some tok => alSet m tok r
        | none => r)
    r

/-- Model of `fetchDexScreenerData(mints)` with the module state passed
explicitly.  `net` is the network oracle: for a batch of mints it returns
the parsed pairs array, or `none` when the fetch throws or the response
is not an array.  `now` is `Date.now()`. -/
def fetchDexScreenerData (net : List String → Option (List DexPair))
    (st : DexCacheState) (now : ℤ) (mints : List String) : DexFetchResult :=
  if mints = [] then ⟨[], st, []⟩
  else
    let uncached :=
      if now - st.timestamp > DEX_CACHE_TTL then mints
      else mints.filter (fun m => (st.cache.lookup m).isNone)
    if uncached = [] then
      ⟨mints.foldl
          (fun r m =>
            match st.cache.lookup m with
            | some tok => alSet m tok r
            | none => r)
          [],
        st, []⟩
    else
      let t := processBatches net (chunksOf DEX_BATCH_SIZE mints) ([], st.cache)
      ⟨fillFromCache t.2.1 mints t.1, ⟨t.2.1, now⟩, t.2.2⟩

/-- On-chain metadata entry from the Helius `getAssetBatch` fallback. -/
structure HeliusAssetMeta where
  name : String
  symbol : String
  image : Option String
deriving DecidableEq

/-- One parsed token account as read by `fetchTokenBalances`:
`info.mint`, `info.tokenAmount.amount` (a u64, so a natural number),
`info.tokenAmount.decimals`, `info.tokenAmount.uiAmount` (nullable in the
RPC response; the code reads it with `?? 0`). -/
structure ParsedTokenAccount where
  mint : String
  amount : ℕ
  decimals : ℕ
  uiAmount : Option ℚ
deriving DecidableEq

/-- The `TokenBalance` record of `src/types.ts`. -/
structure TokenBalance where
  mint : String
  symbol : String
  name : String
  amount : ℕ
  decimals : ℕ
  uiAmount : ℚ
  logoUri : Option String
  priceUsd : Option ℚ
  valueUsd : Option ℚ
  change24h : Option ℚ
  verified : Bool
deriving DecidableEq

/-- The `info.tokenAmount.uiAmount ?? 0` read used both by the filter and
by the ranking key. -/
def uiAmountKey (ta : ParsedTokenAccount) : ℚ :=
  ta.uiAmount.getD 0

/-- The non-zero / non-NFT-placeholder filter (lines 279-287): drop
accounts whose `uiAmount ?? 0` is zero and accounts that look like NFTs
(raw amount exactly 1 with 0 decimals). -/
def nonZeroFilter (ta : ParsedTokenAccount) : Bool :=
  if uiAmountKey ta = 0 then false
  else if ta.decimals = 0 && ta.amount = 1 then false
  else true

/-- Enrichment cap (`MAX_TOKENS_TO_LOOKUP`). -/
def MAX_TOKENS_TO_LOOKUP : ℕ := 50

/-- Ranking relation of the pre-cap sort (lines 294-299): descending by
`uiAmount` (`(a, b) => b.uiAmount - a.uiAmount`). -/
def uiRank (a b : ParsedTokenAccount) : Prop :=
  uiAmountKey b ≤ uiAmountKey a

instance : DecidableRel uiRank :=
  fun a b => inferInstanceAs (Decidable (uiAmountKey b ≤ uiAmountKey a))

instance : IsTotal ParsedTokenAccount uiRank :=
  ⟨fun a b => (le_total (uiAmountKey b) (uiAmountKey a)).imp id id⟩

instance : IsTrans ParsedTokenAccount uiRank :=
  ⟨fun _ _ _ hab hbc => le_trans hbc hab⟩

/-- The `helius?.image || undefined` read (empty strings are falsy). -/
def heliusImage (helius : Option HeliusAssetMeta) : Option String :=
  match helius with
  | some h =>
    match h.image with
    | some s => if s = "" then none else some s
    | none => none
  | none => none

/-- The `dex?.logoUri || helius?.image || undefined` read. -/
def logoUriOf (dex : Option DexScreenerToken) (helius : Option HeliusAssetMeta) :
    Option String :=
  match dex with
  | some d => if d.logoUri = "" then heliusImage helius else some d.logoUri
  | none => heliusImage helius

/-- Construction of one `TokenBalance` from a parsed token account and
the enrichment lookups (lines 319-343).  JavaScript truthiness makes a
price of exactly 0 behave like an absent price (`dex?.priceUsd ||
undefined` and the `dex?.priceUsd ? _ : undefined` conditional). -/
def buildToken (dex : String → Option DexScreenerToken)
    (helius : String → Option HeliusAssetMeta) (ta : ParsedTokenAccount) :
    TokenBalance :=
  let d := dex ta.mint
  let h := helius ta.mint
  let uiAmount := ta.uiAmount.getD 0
  ⟨ta.mint,
   (match d with
    | some d => d.symbol
    | none => match h with | some h => h.symbol | none => shortenMint ta.mint),
   (match d with
    | some d => d.name
    | none => match h with | some h => h.name | none => "Unknown Token"),
   ta.amount,
   ta.decimals,
   uiAmount,
   logoUriOf d h,
   (match d with
    | some d => if d.priceUsd = 0 then none else some d.priceUsd
    | none => none),
   (match d with
    | some d => if d.priceUsd = 0 then none else some (d.priceUsd * uiAmount)
    | none => none),
   (match d with | some d => some d.change24h | none => none),
   d.isSome⟩

/-- The `valueUsd ?? 0` sort key of the final sort. -/
def valueKey (t : TokenBalance) : ℚ :=
  t.valueUsd.getD 0

/-- Final presentation order (lines 348-353): descending by USD value,
ties broken by descending `uiAmount`. -/
def valueRank (a b : TokenBalance) : Prop :=
  valueKey b < valueKey a ∨ (valueKey a = valueKey b ∧ b.uiAmount ≤ a.uiAmount)

instance : DecidableRel valueRank :=
  fun a b =>
    inferInstanceAs
      (Decidable (valueKey b < valueKey a ∨
        (valueKey a = valueKey b ∧ b.uiAmount ≤ a.uiAmount)))

instance : IsTotal TokenBalance valueRank := by
  constructor
  intro a b
  rcases lt_trichotomy (valueKey a) (valueKey b) with h | h | h
  · exact Or.inr (Or.inl h)
  · rcases le_total b.uiAmount a.uiAmount with h' | h'
    · exact Or.inl (Or.inr ⟨h, h'⟩)
    · exact Or.inr (Or.inr ⟨h.symm, h'⟩)
  · exact Or.inl (Or.inl h)

instance : IsTrans TokenBalance valueRank := by
  constructor
  intro a b c hab hbc
  rcases hab with h1 | ⟨h1, h1'⟩
  · rcases hbc with h2 | ⟨h2, _⟩
    · exact Or.inl (lt_trans h2 h1)
    · exact Or.inl (h2 ▸ h1)
  · rcases hbc with h2 | ⟨h2, h2'⟩
    · exact Or.inl (h1 ▸ h2)
    · exact Or.inr ⟨h1.trans h2, le_trans h2' h1'⟩

/-- Core of `fetchTokenBalances` (lines 256-356), with the two
token-program enumerations and the two enrichment lookups supplied as
oracles: merge the two account sets, filter out zero balances and NFT
placeholders, sort descending by `uiAmount` (JavaScript `sort` is
stable), cap to the top 50, build one `TokenBalance` per capped account,
and sort the result by descending USD value with a `uiAmount`
tie-break. -/
def fetchTokenBalances (dex : String → Option DexScreenerToken)
    (helius : String → Option HeliusAssetMeta)
    (tokenAccounts token2022Accounts : List ParsedTokenAccount) :
    List TokenBalance :=
  let allAccounts := tokenAccounts ++ token2022Accounts
  let nonZeroAccounts := allAccounts.filter nonZeroFilter
  let sortedAccounts :=
    (nonZeroAccounts.insertionSort uiRank).take MAX_TOKENS_TO_LOOKUP
  let tokens := sortedAccounts.map (buildToken dex helius)
  tokens.insertionSort valueRank

/-- The `NFTAsset` record of `src/types.ts`. -/
structure NFTAsset where
  mint : String
  name : String
  image : String
  collection : Option String
  description : Option String
deriving DecidableEq

/-- Transaction taxonomy of `TransactionInfo.type`. -/
inductive TxKind where
  | transfer
  | swap
  | nft
  | unknown
deriving DecidableEq

/-- Success/failure status of `TransactionInfo.status`. -/
inductive TxStatus where
  | success
  | failed
deriving DecidableEq

/-- Transfer direction of `TransactionInfo.direction`. -/
inductive TxDirection where
  | inbound
  | outbound
deriving DecidableEq

/-- The `TransactionInfo` record of `src/types.ts`. -/
structure TransactionInfo where
  signature : String
  timestamp : Option ℚ
  kind : TxKind
  status : TxStatus
  fee : ℚ
  amount : Option ℚ
  direction : Option TxDirection
  counterparty : Option String
deriving DecidableEq

/-- The `StakedToken` record of `src/types.ts`. -/
structure StakedToken where
  symbol : String
  name : String
  stakedAmount : ℚ
  logoUri : Option String
  priceUsd : Option ℚ
  valueUsd : Option ℚ
deriving DecidableEq

/-- The `WalletData` record of `src/types.ts` (the WalletSnapshot of the
specification). -/
structure WalletData where
  address : String
  solBalance : ℚ
  solPriceUsd : ℚ
  totalValueUsd : ℚ
  tokens : List TokenBalance
  nfts : List NFTAsset
  transactions : List TransactionInfo
  stakedTokens : List StakedToken
  balanceHistory : List ℚ
  lastUpdated : ℤ
deriving DecidableEq

/-- Module-level CoinGecko price cache (`cachedSolPrice`,
`solPriceTimestamp`). -/
structure SolPriceState where
  cachedSolPrice : ℚ
  solPriceTimestamp : ℤ
deriving DecidableEq

/-- CoinGecko cache TTL: 1 minute in milliseconds. -/
def SOL_PRICE_TTL : ℤ := 60 * 1000

/-- Model of `fetchSolPrice` (lines 609-628).  `resp` is the oracle for
`fetch` + `res.json()`: `.error ()` when either throws, `.ok j` when a
JSON document was produced, with `j` the value of `json?.solana?.usd`
(`none` when the field chain is absent).  Returns the price handed to the
caller and the updated cache.  The function is total: it never throws. -/
def fetchSolPrice (st : SolPriceState) (now : ℤ) (resp : Except Unit (Option ℚ)) :
    ℚ × SolPriceState :=
  if st.cachedSolPrice > 0 ∧ now - st.solPriceTimestamp < SOL_PRICE_TTL then
    (st.cachedSolPrice, st)
  else
    match resp with
    | .ok j =>
      let price := j.getD 0
      if price > 0 then (price, ⟨price, now⟩) else (price, st)
    | .error _ => (if st.cachedSolPrice ≠ 0 then st.cachedSolPrice else 100, st)

/-- One parsed transaction as read by `fetchBalanceHistory`: the account
keys of the message (as base58 strings) and the pre-balance array of the
meta (an entry can be missing for an index, hence the `Option`-free list
read through `get?`; an absent `meta` behaves like an empty array). -/
structure BHTx where
  accountKeys : List String
  preBalances : List ℚ
  postBalances : List ℚ
deriving DecidableEq

/-- The backward walk of `fetchBalanceHistory` (lines 666-683): for each
settled parse result in signature order (newest first), skip rejected or
null results; otherwise, if the tracked address appears among the account
keys, the pre-balance at its index (defaulting to the running balance
when absent) becomes the next point and the running balance is rewound to
it. -/
def bhWalk (address : String) : List (Option BHTx) → ℚ → List ℚ
  | [], _ => []
  | none :: rest, running => bhWalk address rest running
  | some tx :: rest, running =>
    match tx.accountKeys.findIdx? (· == address) with
    | none => bhWalk address rest running
    | some idx =>
      let pre := (tx.preBalances.get? idx).getD running
      (pre / LAMPORTS_PER_SOL) :: bhWalk address rest pre

/-- Model of `fetchBalanceHistory(address, currentBalanceLamports)`
(lines 634-692).  `fetched` is the oracle for the signature listing plus
the per-signature parses: `.error` when the signature fetch (or anything
else inside the `try`) throws, `.ok txs` otherwise, with one entry per
signature (`none` for a rejected or null parse, as absorbed by
`Promise.allSettled`).  The function is total: every failure path returns
the degenerate single-point series. -/
def fetchBalanceHistory (address : String) (currentBalanceLamports : ℚ)
    (fetched : Except String (List (Option BHTx))) : List ℚ :=
  match fetched with
  | .error _ => [currentBalanceLamports / LAMPORTS_PER_SOL]
  | .ok txs =>
    if txs = [] then [currentBalanceLamports / LAMPORTS_PER_SOL]
    else
      ((currentBalanceLamports / LAMPORTS_PER_SOL) ::
        bhWalk address txs currentBalanceLamports).reverse

/-- Labels for the network interactions of one `fetchWalletData` run, in
phase order; used to state that the invalid-address short circuit issues
no network call. -/
inductive NetCall where
  | phase1
  | tokens
  | nfts
  | transactions
  | balanceHistory
  | staking
deriving DecidableEq

/-- Oracle bundle for one `fetchWalletData` run: the outcome of the
Phase-1 balance fetch (after retries), whether the Phase-1 deadline
fired, the CoinGecko cache state and response, and the settled outcomes
of Phase 2 and of the four Phase-3 sub-fetches (an `.error` covers both a
rejection and a deadline expiry of that sub-fetch). -/
structure WalletEnv where
  phase1TimedOut : Bool
  balanceResult : Except String ℚ
  priceState : SolPriceState
  priceNow : ℤ
  priceResp : Except Unit (Option ℚ)
  tokensResult : Except String (List TokenBalance)
  nftsResult : Except String (List NFTAsset)
  txsResult : Except String (List TransactionInfo)
  historyResult : Except String (List ℚ)
  stakingResult : Except String (List StakedToken)
  nowMs : ℤ

/-- A settled (`Promise.allSettled`-style) result: the value when
fulfilled, the default when rejected. -/
def settleD (r : Except String β) (d : β) : β :=
  match r with
  | .ok v => v
  | .error _ => d

/-- The token-value accumulation
`tokens.reduce((sum, t) => sum + (t.valueUsd ?? 0), 0)`. -/
def tokenValueSum (tokens : List TokenBalance) : ℚ :=
  tokens.foldl (fun sum t => sum + t.valueUsd.getD 0) 0

/-- The staked-value accumulation
`stakedTokens.reduce((sum, s) => sum + (s.valueUsd ?? 0), 0)`. -/
def stakedValueSum (staked : List StakedToken) : ℚ :=
  staked.foldl (fun sum s => sum + s.valueUsd.getD 0) 0

/-- The dedicated invalid-address error message of `fetchWalletData`. -/
def invalidAddressError (address : String) : String :=
  "Invalid Solana address: " ++ strSlice 10 address ++ "..."

/-- Body of `fetchWalletData` after the sanitization step (lines
703-788), over an already-sanitized address: validate the address (no
network call was made yet — an invalid address short-circuits with an
empty call trace); run Phase 1 (balance + price under one deadline;
either the deadline or a balance failure rejects the whole run); Phase 2
and the four Phase-3 sub-fetches each degrade to an empty default on
failure; assemble the snapshot. -/
def fetchWalletDataSanitized (env : WalletEnv) (address : String) :
    Except String WalletData × List NetCall :=
  if isValidSolanaAddress address then
    if env.phase1TimedOut then
      (.error "[Phase1] Timed out after 15000ms", [.phase1])
    else
      match env.balanceResult with
      | .error e => (.error e, [.phase1])
      | .ok solBalance =>
        let solPriceUsd := (fetchSolPrice env.priceState env.priceNow env.priceResp).1
        let tokens := settleD env.tokensResult []
        let nfts := settleD env.nftsResult []
        let transactions := settleD env.txsResult []
        let balanceHistory := settleD env.historyResult []
        let stakedTokens := settleD env.stakingResult []
        let solValueUsd := solBalance * solPriceUsd
        let totalValueUsd :=
          solValueUsd + tokenValueSum tokens + stakedValueSum stakedTokens
        (.ok ⟨address, solBalance, solPriceUsd, totalValueUsd, tokens, nfts,
          transactions, stakedTokens, balanceHistory, env.nowMs⟩,
         [.phase1, .tokens, .nfts, .transactions, .balanceHistory, .staking])
  else (.error (invalidAddressError address), [])

/-- Model of the public entry point `fetchWalletData(address)`: sanitize
the input, then run the orchestration on the sanitized address. -/
def fetchWalletData (env : WalletEnv) (input : String) :
    Except String WalletData × List NetCall :=
  fetchWalletDataSanitized env (sanitizeAddress input)

/-- A real 32-byte base58 public key (the SPL token program id that the
source file itself hardcodes), used to exercise the valid-address paths
on concrete inputs. -/
def SAMPLE_ADDRESS : String := "TokenkegQfeZyiNwAJbNbGKPFXCWuBvf9Ss623VQ5DA"

/-- Enrichment oracle that resolves nothing (DexScreener knows no mint). -/
def dexNone : String → Option DexScreenerToken := fun _ => none

/-- Fallback metadata oracle that resolves nothing. -/
def heliusNone : String → Option HeliusAssetMeta := fun _ => none

/-- A token account whose reported `uiAmount` agrees with
`amount / 10^decimals` (7 raw units, 0 decimals, reported 7). -/
def acctConsistent : ParsedTokenAccount := ⟨"mintexample", 7, 0, some 7⟩

/-- A token account whose reported `uiAmount` (7) disagrees with
`amount / 10^decimals` (2 / 10^0 = 2); it passes the non-zero and
non-placeholder filters. -/
def acctMismatch : ParsedTokenAccount := ⟨"mintexample", 2, 0, some 7⟩

/-- Two DexScreener listings for the same base token, with reported
liquidity 100 and 500. -/
def pair100 : DexPair :=
  ⟨some "mintexample", some "Alpha", some "ALP", some 2, some 100, none, none⟩

/-- The higher-liquidity listing of the pair; see `pair100`. -/
def pair500 : DexPair :=
  ⟨some "mintexample", some "Beta", some "BET", some 3, some 500, some "img", some 1⟩

/-- Listing for the mint `"mintalpha"` of the two-request cache scenario. -/
def cxPairA : DexPair :=
  ⟨some "mintalpha", some "A", some "A", some 1, some 10, none, none⟩

/-- Listing for the mint `"mintbeta"` of the two-request cache scenario. -/
def cxPairB : DexPair :=
  ⟨some "mintbeta", some "B", some "B", some 1, some 20, none, none⟩

/-- Network oracle of the two-request cache scenario: every batch request
succeeds and returns the listings for exactly the requested mints. -/
def cxNet : List String → Option (List DexPair) :=
  fun batch =>
    some ([cxPairA, cxPairB].filter
      (fun p =>
        match p.baseAddress with
        | some m => batch.contains m
        | none => false))

/-- An environment in which Phase 1 succeeds (balance 2 SOL, CoinGecko
fetch throws so the price falls back to the hard-coded 100) and every
later sub-fetch resolves to an empty collection. -/
def envOk : WalletEnv :=
  ⟨false, .ok 2, ⟨0, 0⟩, 0, .error (), .ok [], .ok [], .ok [], .ok [], .ok [], 777⟩

/-- C8: an input that is not a well-formed base58 public key after
sanitization makes `fetchWalletData` reject with the dedicated
invalid-address error, with an empty network-call trace (the validation
happens before Phase 1). -/
theorem invalid_address_short_circuit (env : WalletEnv) (input : String)
    (h : isValidSolanaAddress (sanitizeAddress input) = false) :
    fetchWalletData env input =
      (.error (invalidAddressError (sanitizeAddress input)), []) := by
  simp [fetchWalletData, fetchWalletDataSanitized, h]

/-- Witness for C8: the input `"hello world!"` sanitizes to `"heoword"`,
which decodes to fewer than 32 bytes, so the run rejects with the
dedicated error and no network call. -/
theorem invalid_address_short_circuit_witness :
    isValidSolanaAddress (sanitizeAddress "hello world!") = false ∧
      fetchWalletData envOk "hello world!" =
        (.error (invalidAddressError (sanitizeAddress "hello world!")), []) :=
  ⟨by decide, invalid_address_short_circuit envOk "hello world!" (by decide)⟩

/-- C4: the balance-history reconstructor is total (it returns a plain
list, never an error); its result is non-empty, its last element is the
supplied current balance converted to whole SOL (the series is built
newest-point-last, i.e. oldest to newest), and when the signature fetch
fails or no signatures exist the result is exactly the single-point
series. -/
theorem fetchBalanceHistory_spec (address : String) (cur : ℚ)
    (fetched : Except String (List (Option BHTx))) :
    fetchBalanceHistory address cur fetched ≠ [] ∧
    (fetchBalanceHistory address cur fetched).getLast? =
      some (cur / LAMPORTS_PER_SOL) ∧
    (∀ e, fetched = .error e →
      fetchBalanceHistory address cur fetched = [cur / LAMPORTS_PER_SOL]) ∧
    (fetched = .ok [] →
      fetchBalanceHistory address cur fetched = [cur / LAMPORTS_PER_SOL]) := by
  match fetched with
  | .error e => simp [fetchBalanceHistory]
  | .ok txs =>
    by_cases h : txs = []
    · subst h
      simp [fetchBalanceHistory]
    · refine ⟨?_, ?_, ?_, ?_⟩
      · simp [fetchBalanceHistory, h]
      · simp [fetchBalanceHistory, h]
      · intro e he
        exact absurd he (by simp)
      · intro he
        exact absurd (Except.ok.inj he) h

/-- Witness for C4: a failed signature fetch yields the degenerate
single-point series for a concrete address and balance. -/
theorem fetchBalanceHistory_spec_witness :
    fetchBalanceHistory "addr" 5 (.error "boom") = [5 / LAMPORTS_PER_SOL] :=
  (fetchBalanceHistory_spec "addr" 5 (.error "boom")).2.2.1 "boom" rfl

/-- The retry loop performs at most `fuel` invocations. -/
theorem withRetryGo_calls_le (fn : ℕ → Except String α) (mr : ℕ) (bd : ℚ) :
    ∀ fuel attempt le, (withRetryGo fn mr bd attempt le fuel).calls ≤ fuel := by
  intro fuel
  induction fuel with
  | zero => intro attempt le; simp [withRetryGo]
  | succ fuel ih =>
    intro attempt le
    cases h : fn attempt with
    | ok v => simp [withRetryGo, h]
    | error e =>
      by_cases ht : (isTransientMsg e && decide (attempt < mr)) = true
      · simpa [withRetryGo, h, ht] using Nat.succ_le_succ (ih (attempt + 1) e)
      · simp [withRetryGo, h, ht]

/-- With at least one unit of fuel the retry loop invokes the operation
at least once. -/
theorem withRetryGo_calls_pos (fn : ℕ → Except String α) (mr : ℕ) (bd : ℚ) :
    ∀ fuel attempt le, 1 ≤ fuel →
      1 ≤ (withRetryGo fn mr bd attempt le fuel).calls := by
  intro fuel attempt le hfuel
  match fuel, hfuel with
  | fuel + 1, _ =>
    cases h : fn attempt with
    | ok v => simp [withRetryGo, h]
    | error e =>
      by_cases ht : (isTransientMsg e && decide (attempt < mr)) = true
      · simp [withRetryGo, h, ht]
      · simp [withRetryGo, h, ht]

/-- The sleeps of the retry loop are exactly
`baseDelay * 2 ^ attemptIndex`, one per non-final invocation, starting at
the loop entry's attempt index. -/
theorem withRetryGo_delays_eq (fn : ℕ → Except String α) (mr : ℕ) (bd : ℚ) :
    ∀ fuel attempt le, attempt + fuel = mr + 1 →
      (withRetryGo fn mr bd attempt le fuel).delays =
        (List.range ((withRetryGo fn mr bd attempt le fuel).calls - 1)).map
          (fun i => bd * 2 ^ (attempt + i)) := by
  intro fuel
  induction fuel with
  | zero => intro attempt le hinv; simp [withRetryGo]
  | succ fuel ih =>
    intro attempt le hinv
    cases h : fn attempt with
    | ok v => simp [withRetryGo, h]
    | error e =>
      by_cases ht : (isTransientMsg e && decide (attempt < mr)) = true
      · have hlt : attempt < mr := by
          have := (Bool.and_eq_true _ _).mp ht
          exact of_decide_eq_true this.2
        have hfuel1 : 1 ≤ fuel := by omega
        have hpos := withRetryGo_calls_pos fn mr bd fuel (attempt + 1) e hfuel1
        have hrec := ih (attempt + 1) e (by omega)
        obtain ⟨k, hk⟩ :
            ∃ k, (withRetryGo fn mr bd (attempt + 1) e fuel).calls = k + 1 :=
          ⟨(withRetryGo fn mr bd (attempt + 1) e fuel).calls - 1, by omega⟩
        simp only [withRetryGo, h, ht, if_true]
        rw [hrec, hk]
        simp only [Nat.add_sub_cancel, List.range_succ_eq_map, List.map_cons,
          List.map_map]
        refine congrArg₂ _ (by ring_nf) ?_
        refine List.map_congr_left ?_
        intro i _
        have h2 : attempt + 1 + i = attempt + Nat.succ i := by omega
        simp [Function.comp_apply, h2]
      · simp [withRetryGo, h, ht]

/-- Every non-final invocation of the retry loop failed with a transient
(rate-limit- or timeout-shaped) error. -/
theorem withRetryGo_nonfinal_transient (fn : ℕ → Except String α) (mr : ℕ) (bd : ℚ) :
    ∀ fuel attempt le i,
      i + 1 < (withRetryGo fn mr bd attempt le fuel).calls →
      ∃ e, fn (attempt + i) = .error e ∧ isTransientMsg e = true := by
  intro fuel
  induction fuel with
  | zero => intro attempt le i hi; simp [withRetryGo] at hi
  | succ fuel ih =>
    intro attempt le i hi
    cases h : fn attempt with
    | ok v => simp [withRetryGo, h] at hi
    | error e =>
      by_cases ht : (isTransientMsg e && decide (attempt < mr)) = true
      · have htrans : isTransientMsg e = true := ((Bool.and_eq_true _ _).mp ht).1
        simp only [withRetryGo, h, ht, if_true] at hi
        match i with
        | 0 => exact ⟨e, by simpa using h, htrans⟩
        | i + 1 =>
          have hrec := ih (attempt + 1) e i (by omega)
          have harg : attempt + 1 + i = attempt + (i + 1) := by omega
          rw [harg] at hrec
          exact hrec
      · simp [withRetryGo, h, ht] at hi

/-- The retry loop's final outcome is the outcome of its last
invocation. -/
theorem withRetryGo_result_last (fn : ℕ → Except String α) (mr : ℕ) (bd : ℚ) :
    ∀ fuel attempt le, 1 ≤ fuel →
      (withRetryGo fn mr bd attempt le fuel).result =
        fn (attempt + ((withRetryGo fn mr bd attempt le fuel).calls - 1)) := by
  intro fuel
  induction fuel with
  | zero => intro attempt le h; omega
  | succ fuel ih =>
    intro attempt le _
    cases h : fn attempt with
    | ok v => simp [withRetryGo, h]
    | error e =>
      by_cases ht : (isTransientMsg e && decide (attempt < mr)) = true
      · by_cases hfuel : 1 ≤ fuel
        · have hpos := withRetryGo_calls_pos fn mr bd fuel (attempt + 1) e hfuel
          have hrec := ih (attempt + 1) e hfuel
          simp only [withRetryGo, h, ht, if_true]
          rw [hrec]
          refine congrArg _ (by omega)
        · interval_cases fuel
          simp [withRetryGo, h, ht]
      · simp [withRetryGo, h, ht]

/-- C3: `withRetry` invokes the wrapped operation at most
`maxRetries + 1` times (3 with the default `maxRetries = 2`); the sleeps
between attempts are exactly `baseDelay * 2 ^ attempt` for attempts
0, 1, ... (so they strictly double: 1500 ms, 3000 ms with the default
base delay); a first invocation that succeeds returns its value after
exactly one invocation and no sleep; a first invocation that fails with a
non-transient error rethrows it after exactly one invocation and no
sleep; every non-final invocation failed with a transient (rate-limit- or
timeout-shaped) error, so only transient errors are ever retried; and the
final outcome is the outcome of the last invocation performed. -/
theorem withRetry_spec (fn : ℕ → Except String α) (maxRetries : ℕ) (baseDelay : ℚ) :
    (withRetry fn maxRetries baseDelay).calls ≤ maxRetries + 1 ∧
    (withRetry fn maxRetries baseDelay).delays =
      (List.range ((withRetry fn maxRetries baseDelay).calls - 1)).map
        (fun i => baseDelay * 2 ^ i) ∧
    (∀ v, fn 0 = .ok v →
      withRetry fn maxRetries baseDelay = ⟨.ok v, [], 1⟩) ∧
    (∀ e, fn 0 = .error e → isTransientMsg e = false →
      withRetry fn maxRetries baseDelay = ⟨.error e, [], 1⟩) ∧
    (∀ i, i + 1 < (withRetry fn maxRetries baseDelay).calls →
      ∃ e, fn i = .error e ∧ isTransientMsg e = true) ∧
    (withRetry fn maxRetries baseDelay).result =
      fn ((withRetry fn maxRetries baseDelay).calls - 1) := by
  refine ⟨?_, ?_, ?_, ?_, ?_, ?_⟩
  · exact withRetryGo_calls_le fn maxRetries baseDelay (maxRetries + 1) 0 ""
  · have h := withRetryGo_delays_eq fn maxRetries baseDelay (maxRetries + 1) 0 ""
      (by omega)
    simpa [withRetry] using h
  · intro v hv
    simp [withRetry, withRetryGo, hv]
  · intro e he ht
    simp [withRetry, withRetryGo, he, ht]
  · intro i hi
    have h := withRetryGo_nonfinal_transient fn maxRetries baseDelay
      (maxRetries + 1) 0 "" i (by simpa [withRetry] using hi)
    simpa using h
  · have h := withRetryGo_result_last fn maxRetries baseDelay (maxRetries + 1) 0 ""
      (by omega)
    simpa [withRetry] using h

/-- Witness for C3: an always-succeeding operation returns its value
after one invocation; an operation failing with a non-transient error is
rethrown after exactly one invocation; an operation that keeps hitting
rate limits is invoked at most 3 times under the default policy. -/
theorem withRetry_spec_witness :
    withRetry (fun _ => (.ok 42 : Except String ℕ)) 2 1500 = ⟨.ok 42, [], 1⟩ ∧
    withRetry (fun _ => (.error "boom" : Except String ℕ)) 2 1500 =
      ⟨.error "boom", [], 1⟩ ∧
    (withRetry (fun i => if i < 2 then (.error "429" : Except String ℕ)
      else .ok 7) 2 1500).calls ≤ 3 :=
  ⟨(withRetry_spec _ 2 1500).2.2.1 42 rfl,
   (withRetry_spec _ 2 1500).2.2.2.1 "boom" rfl (by decide),
   (withRetry_spec _ 2 1500).1⟩

/-- Association-list lookup at the head key. -/
theorem lookup_cons_self (k : String) (v : α) (l : List (String × α)) :
    ((k, v) :: l).lookup k = some v := by
  simp [List.lookup]

/-- Association-list lookup skips a head with a different key. -/
theorem lookup_cons_ne {m k : String} (hne : m ≠ k) (v : α)
    (l : List (String × α)) : ((k, v) :: l).lookup m = l.lookup m := by
  have hb : (m == k) = false := beq_eq_false_iff_ne.mpr hne
  simp [List.lookup, hb]

/-- Looking up the key just set by `alSet` yields the new value. -/
theorem alSet_lookup_self (k : String) (v : α) :
    ∀ l : List (String × α), (alSet k v l).lookup k = some v := by
  intro l
  induction l with
  | nil => simp [alSet, List.lookup]
  | cons hd tl ih =>
    obtain ⟨k', v'⟩ := hd
    by_cases h : k' = k
    · subst h
      simp [alSet, List.lookup]
    · have h1 : alSet k v ((k', v') :: tl) = (k', v') :: alSet k v tl := by
        simp [alSet, h]
      rw [h1, lookup_cons_ne (fun e => h e.symm) v' (alSet k v tl)]
      exact ih

/-- Looking up a different key after `alSet` is unchanged. -/
theorem alSet_lookup_ne {k k' : String} (hne : k' ≠ k) (v : α) :
    ∀ l : List (String × α), (alSet k v l).lookup k' = l.lookup k' := by
  intro l
  induction l with
  | nil =>
    have h1 : alSet k v ([] : List (String × α)) = [(k, v)] := rfl
    rw [h1, lookup_cons_ne hne v []]
  | cons hd tl ih =>
    obtain ⟨k'', v''⟩ := hd
    by_cases h : k'' = k
    · subst h
      have h1 : alSet k'' v ((k'', v'') :: tl) = (k'', v) :: tl := by
        simp [alSet]
      rw [h1, lookup_cons_ne hne v tl, lookup_cons_ne hne v'' tl]
    · have h1 : alSet k v ((k'', v'') :: tl) = (k'', v'') :: alSet k v tl := by
        simp [alSet, h]
      rw [h1]
      by_cases h2 : k' = k''
      · subst h2
        rw [lookup_cons_self, lookup_cons_self]
      · rw [lookup_cons_ne h2 v'' (alSet k v tl), lookup_cons_ne h2 v'' tl]
        exact ih

/-- Key membership after `alSet`: the new key plus the old keys. -/
theorem mem_keys_alSet (k m : String) (v : α) :
    ∀ l : List (String × α),
      (m ∈ (alSet k v l).map Prod.fst ↔ m = k ∨ m ∈ l.map Prod.fst) := by
  intro l
  induction l with
  | nil => simp [alSet]
  | cons hd tl ih =>
    obtain ⟨k', v'⟩ := hd
    by_cases h : k' = k
    · subst h
      simp [alSet]
      try tauto
    · have h1 : alSet k v ((k', v') :: tl) = (k', v') :: alSet k v tl := by
        simp [alSet, h]
      rw [h1]
      simp only [List.map_cons, List.mem_cons, ih]
      tauto

/-- `alSet` preserves distinctness of keys. -/
theorem alSet_keys_nodup (k : String) (v : α) :
    ∀ l : List (String × α),
      (l.map Prod.fst).Nodup → ((alSet k v l).map Prod.fst).Nodup := by
  intro l
  induction l with
  | nil => simp [alSet]
  | cons hd tl ih =>
    obtain ⟨k', v'⟩ := hd
    intro hnd
    simp only [List.map_cons, List.nodup_cons] at hnd
    by_cases h : k' = k
    · subst h
      have h1 : alSet k' v ((k', v') :: tl) = (k', v) :: tl := by
        simp [alSet]
      rw [h1]
      simpa using hnd
    · have h1 : alSet k v ((k', v') :: tl) = (k', v') :: alSet k v tl := by
        simp [alSet, h]
      rw [h1, List.map_cons, List.nodup_cons]
      refine ⟨?_, ih hnd.2⟩
      intro hmem
      rcases (mem_keys_alSet k k' v tl).mp hmem with h1 | h1
      · exact h h1
      · exact hnd.1 h1

/-- A key outside the key set has no binding. -/
theorem lookup_eq_none_of_not_mem_keys {l : List (String × α)} {m : String}
    (h : m ∉ l.map Prod.fst) : l.lookup m = none := by
  induction l with
  | nil => simp [List.lookup]
  | cons hd tl ih =>
    obtain ⟨k, v⟩ := hd
    simp only [List.map_cons, List.mem_cons] at h
    push_neg at h
    rw [lookup_cons_ne h.1 v tl]
    exact ih h.2

/-- Fold invariant of the best-pair selection: every binding of the
accumulated map points to a pair among those seen so far, for the right
base-token address, with maximal reported liquidity among the seen pairs
for that address; and every seen address has a binding. -/
theorem bestPairs_invariant :
    ∀ (pairs : List DexPair) (acc : List (String × DexPair)) (seen : List DexPair),
      (∀ m p, acc.lookup m = some p → p ∈ seen ∧ p.baseAddress = some m ∧
        ∀ q ∈ seen, q.baseAddress = some m → liqOf q ≤ liqOf p) →
      (∀ q ∈ seen, ∀ m, q.baseAddress = some m → (acc.lookup m).isSome = true) →
      ∀ m p, (pairs.foldl updateBest acc).lookup m = some p →
        p ∈ seen ++ pairs ∧ p.baseAddress = some m ∧
        ∀ q ∈ seen ++ pairs, q.baseAddress = some m → liqOf q ≤ liqOf p := by
  intro pairs
  induction pairs with
  | nil =>
    intro acc seen h1 h2 m p hp
    simp only [List.foldl_nil] at hp
    obtain ⟨hmem, haddr, hmax⟩ := h1 m p hp
    refine ⟨by simpa using hmem, haddr, ?_⟩
    intro q hq hqa
    exact hmax q (by simpa using hq) hqa
  | cons p0 rest ih =>
    intro acc seen h1 h2 m p hp
    simp only [List.foldl_cons] at hp
    have hstep :
        (∀ m p, (updateBest acc p0).lookup m = some p →
          p ∈ seen ++ [p0] ∧ p.baseAddress = some m ∧
          ∀ q ∈ seen ++ [p0], q.baseAddress = some m → liqOf q ≤ liqOf p) ∧
        (∀ q ∈ seen ++ [p0], ∀ m, q.baseAddress = some m →
          ((updateBest acc p0).lookup m).isSome = true) := by
      cases haddr0 : p0.baseAddress with
      | none =>
        have hub : updateBest acc p0 = acc := by simp [updateBest, haddr0]
        rw [hub]
        constructor
        · intro m' p' hp'
          obtain ⟨hmem, ha, hmax⟩ := h1 m' p' hp'
          refine ⟨List.mem_append_left _ hmem, ha, ?_⟩
          intro q hq hqa
          rcases List.mem_append.mp hq with hq | hq
          · exact hmax q hq hqa
          · have hqp : q = p0 := by simpa using hq
            subst hqp
            rw [haddr0] at hqa
            cases hqa
        · intro q hq m' hqa
          rcases List.mem_append.mp hq with hq | hq
          · exact h2 q hq m' hqa
          · have hqp : q = p0 := by simpa using hq
            subst hqp
            rw [haddr0] at hqa
            cases hqa
      | some mint =>
        have hlem :
            ∀ hub : updateBest acc p0 = alSet mint p0 acc,
            (∀ q ∈ seen, q.baseAddress = some mint → liqOf q ≤ liqOf p0) →
            (∀ m' p', (updateBest acc p0).lookup m' = some p' →
              p' ∈ seen ++ [p0] ∧ p'.baseAddress = some m' ∧
              ∀ q ∈ seen ++ [p0], q.baseAddress = some m' → liqOf q ≤ liqOf p') ∧
            (∀ q ∈ seen ++ [p0], ∀ m', q.baseAddress = some m' →
              ((updateBest acc p0).lookup m').isSome = true) := by
          intro hub hdom
          rw [hub]
          constructor
          · intro m' p' hp'
            by_cases hm : m' = mint
            · subst hm
              rw [alSet_lookup_self] at hp'
              have hpp : p0 = p' := Option.some.inj hp'
              subst hpp
              refine ⟨List.mem_append_right _ (by simp), haddr0, ?_⟩
              intro q hq hqa
              rcases List.mem_append.mp hq with hq | hq
              · exact hdom q hq hqa
              · have hqp : q = p0 := by simpa using hq
                subst hqp
                exact le_refl _
            · rw [alSet_lookup_ne hm p0 acc] at hp'
              obtain ⟨hmem, ha, hmax⟩ := h1 m' p' hp'
              refine ⟨List.mem_append_left _ hmem, ha, ?_⟩
              intro q hq hqa
              rcases List.mem_append.mp hq with hq | hq
              · exact hmax q hq hqa
              · have hqp : q = p0 := by simpa using hq
                subst hqp
                rw [haddr0] at hqa
                exact absurd (Option.some.inj hqa) (fun e => hm e.symm)
          · intro q hq m' hqa
            by_cases hm : m' = mint
            · subst hm
              rw [alSet_lookup_self]
              simp
            · rw [alSet_lookup_ne hm p0 acc]
              rcases List.mem_append.mp hq with hq | hq
              · exact h2 q hq m' hqa
              · have hqp : q = p0 := by simpa using hq
                subst hqp
                rw [haddr0] at hqa
                exact absurd (Option.some.inj hqa) (fun e => hm e.symm)
        cases hlk : acc.lookup mint with
        | none =>
          refine hlem (by simp [updateBest, haddr0, hlk]) ?_
          intro q hq hqa
          have := h2 q hq mint hqa
          rw [hlk] at this
          cases this
        | some q0 =>
          by_cases hcmp : liqOf q0 < liqOf p0
          · refine hlem (by simp [updateBest, haddr0, hlk, hcmp]) ?_
            intro q hq hqa
            obtain ⟨_, _, hmax0⟩ := h1 mint q0 hlk
            exact le_trans (hmax0 q hq hqa) hcmp.le
          · have hub : updateBest acc p0 = acc := by
              simp [updateBest, haddr0, hlk, hcmp]
            rw [hub]
            constructor
            · intro m' p' hp'
              obtain ⟨hmem, ha, hmax⟩ := h1 m' p' hp'
              refine ⟨List.mem_append_left _ hmem, ha, ?_⟩
              intro q hq hqa
              rcases List.mem_append.mp hq with hq | hq
              · exact hmax q hq hqa
              · have hqp : q = p0 := by simpa using hq
                subst hqp
                rw [haddr0] at hqa
                have hm : mint = m' := Option.some.inj hqa
                subst hm
                have hpq : q0 = p' := by
                  rw [hlk] at hp'
                  exact Option.some.inj hp'
                subst hpq
                exact not_lt.mp hcmp
            · intro q hq m' hqa
              rcases List.mem_append.mp hq with hq | hq
              · exact h2 q hq m' hqa
              · have hqp : q = p0 := by simpa using hq
                subst hqp
                rw [haddr0] at hqa
                have hm : mint = m' := Option.some.inj hqa
                subst hm
                rw [hlk]
                simp
    have key := ih (updateBest acc p0) (seen ++ [p0]) hstep.1 hstep.2 m p hp
    obtain ⟨hmem, haddr, hmax⟩ := key
    refine ⟨by simpa using hmem, haddr, ?_⟩
    intro q hq hqa
    refine hmax q ?_ hqa
    simpa using hq

/-- `updateBest` preserves distinctness of map keys. -/
theorem updateBest_keys_nodup (acc : List (String × DexPair)) (p0 : DexPair)
    (h : (acc.map Prod.fst).Nodup) :
    ((updateBest acc p0).map Prod.fst).Nodup := by
  cases haddr : p0.baseAddress with
  | none => simpa [updateBest, haddr] using h
  | some mint =>
    cases hlk : acc.lookup mint with
    | none => simpa [updateBest, haddr, hlk] using alSet_keys_nodup mint p0 acc h
    | some q0 =>
      by_cases hcmp : liqOf q0 < liqOf p0
      · simpa [updateBest, haddr, hlk, hcmp] using alSet_keys_nodup mint p0 acc h
      · simpa [updateBest, haddr, hlk, hcmp] using h

/-- The best-pair map has distinct keys. -/
theorem bestPairs_keys_nodup (pairs : List DexPair) :
    ((bestPairs pairs).map Prod.fst).Nodup := by
  suffices h : ∀ acc : List (String × DexPair), (acc.map Prod.fst).Nodup →
      ((pairs.foldl updateBest acc).map Prod.fst).Nodup by
    exact h [] (by simp)
  induction pairs with
  | nil => intro acc hacc; simpa using hacc
  | cons p0 rest ih =>
    intro acc hacc
    simp only [List.foldl_cons]
    exact ih (updateBest acc p0) (updateBest_keys_nodup acc p0 hacc)

/-- Folding `applyBest` over entries whose keys avoid `m` leaves the
bindings of `m` in both maps unchanged. -/
theorem foldl_applyBest_not_mem :
    ∀ (l : List (String × DexPair)) (r c : List (String × DexScreenerToken))
      (m : String), m ∉ l.map Prod.fst →
      (l.foldl applyBest (r, c)).1.lookup m = r.lookup m ∧
      (l.foldl applyBest (r, c)).2.lookup m = c.lookup m := by
  intro l
  induction l with
  | nil => intro r c m _; simp
  | cons hd tl ih =>
    obtain ⟨k, v⟩ := hd
    intro r c m hm
    simp only [List.map_cons, List.mem_cons] at hm
    push_neg at hm
    simp only [List.foldl_cons]
    have hstep : applyBest (r, c) (k, v) =
        (alSet k (mkDexToken k v) r, alSet k (mkDexToken k v) c) := rfl
    rw [hstep]
    obtain ⟨h1, h2⟩ := ih (alSet k (mkDexToken k v) r)
      (alSet k (mkDexToken k v) c) m hm.2
    rw [h1, h2, alSet_lookup_ne hm.1, alSet_lookup_ne hm.1]
    exact ⟨rfl, rfl⟩

/-- Folding `applyBest` over a map with distinct keys writes
`mkDexToken m p` into both the result and the cache map for every
binding `(m, p)` of the folded map. -/
theorem foldl_applyBest_lookup :
    ∀ (l : List (String × DexPair)) (r c : List (String × DexScreenerToken))
      (m : String) (p : DexPair),
      (l.map Prod.fst).Nodup → l.lookup m = some p →
      (l.foldl applyBest (r, c)).1.lookup m = some (mkDexToken m p) ∧
      (l.foldl applyBest (r, c)).2.lookup m = some (mkDexToken m p) := by
  intro l
  induction l with
  | nil => intro r c m p _ hlk; simp [List.lookup] at hlk
  | cons hd tl ih =>
    obtain ⟨k, v⟩ := hd
    intro r c m p hnd hlk
    simp only [List.map_cons, List.nodup_cons] at hnd
    simp only [List.foldl_cons]
    have hstep : applyBest (r, c) (k, v) =
        (alSet k (mkDexToken k v) r, alSet k (mkDexToken k v) c) := rfl
    rw [hstep]
    by_cases hm : m = k
    · subst hm
      rw [lookup_cons_self] at hlk
      have hvp : v = p := Option.some.inj hlk
      subst hvp
      obtain ⟨h1, h2⟩ := foldl_applyBest_not_mem tl
        (alSet m (mkDexToken m v) r) (alSet m (mkDexToken m v) c) m hnd.1
      rw [h1, h2, alSet_lookup_self, alSet_lookup_self]
      exact ⟨rfl, rfl⟩
    · rw [lookup_cons_ne hm v tl] at hlk
      exact ih (alSet k (mkDexToken k v) r) (alSet k (mkDexToken k v) c)
        m p hnd.2 hlk

/-- C5: whenever the best-pair selection of a batch response binds an
identifier `m` to a pair `p`, that pair is one of the response's listings
for `m` and has liquidity (absent liquidity read as 0) at least that of
every listing for `m`; and the per-batch application step then resolves
`m` to exactly `mkDexToken m p` — the name/symbol/price/logo/24h-change
data of that listing — in both the returned map and the cache. -/
theorem bestPair_max_liquidity (pairs : List DexPair) (m : String) (p : DexPair)
    (h : (bestPairs pairs).lookup m = some p) :
    p ∈ pairs ∧ p.baseAddress = some m ∧
    (∀ q ∈ pairs, q.baseAddress = some m → liqOf q ≤ liqOf p) ∧
    ∀ r c : List (String × DexScreenerToken),
      ((bestPairs pairs).foldl applyBest (r, c)).1.lookup m =
        some (mkDexToken m p) ∧
      ((bestPairs pairs).foldl applyBest (r, c)).2.lookup m =
        some (mkDexToken m p) := by
  have base := bestPairs_invariant pairs [] []
    (by intro m' p' hp'; simp [List.lookup] at hp')
    (by intro q hq; simp at hq)
    m p h
  obtain ⟨hmem, haddr, hmax⟩ := base
  refine ⟨by simpa using hmem, haddr, ?_, ?_⟩
  · intro q hq hqa
    exact hmax q (by simpa using hq) hqa
  · intro r c
    exact foldl_applyBest_lookup (bestPairs pairs) r c m p
      (bestPairs_keys_nodup pairs) h

/-- Witness for C5: of two listings for the same identifier with
liquidity 100 and 500, the selection binds the identifier to the
liquidity-500 listing, and that listing's data is what maximality and the
application step then guarantee. -/
theorem bestPair_max_liquidity_witness :
    (bestPairs [pair100, pair500]).lookup "mintexample" = some pair500 ∧
    (pair500 ∈ [pair100, pair500] ∧ pair500.baseAddress = some "mintexample" ∧
    (∀ q ∈ [pair100, pair500], q.baseAddress = some "mintexample" →
      liqOf q ≤ liqOf pair500) ∧
    ∀ r c : List (String × DexScreenerToken),
      ((bestPairs [pair100, pair500]).foldl applyBest (r, c)).1.lookup
          "mintexample" = some (mkDexToken "mintexample" pair500) ∧
      ((bestPairs [pair100, pair500]).foldl applyBest (r, c)).2.lookup
          "mintexample" = some (mkDexToken "mintexample" pair500)) :=
  ⟨by decide, bestPair_max_liquidity [pair100, pair500] "mintexample" pair500
    (by decide)⟩

/-- Batch processing of an empty batch list is a no-op. -/
theorem processBatches_nil (net : List String → Option (List DexPair))
    (rc : List (String × DexScreenerToken) × List (String × DexScreenerToken)) :
    processBatches net [] rc = (rc.1, rc.2, []) := by
  obtain ⟨r, c⟩ := rc
  rfl

/-- Batch processing step on a successful batch response. -/
theorem processBatches_cons_some (net : List String → Option (List DexPair))
    (b : List String) (bs : List (List String))
    (rc : List (String × DexScreenerToken) × List (String × DexScreenerToken))
    (pairs : List DexPair) (h : net b = some pairs) :
    processBatches net (b :: bs) rc =
      ((processBatches net bs ((bestPairs pairs).foldl applyBest rc)).1,
       (processBatches net bs ((bestPairs pairs).foldl applyBest rc)).2.1,
       b :: (processBatches net bs ((bestPairs pairs).foldl applyBest rc)).2.2) := by
  obtain ⟨r, c⟩ := rc
  simp [processBatches, h]

/-- A `fetchDexScreenerData` run that reaches the network: non-empty
request whose uncached set is non-empty. -/
theorem fetchDex_network_run (net : List String → Option (List DexPair))
    (st : DexCacheState) (now : ℤ) (mints : List String) (hm : mints ≠ [])
    (hunc : (if now - st.timestamp > DEX_CACHE_TTL then mints
      else mints.filter (fun x => (st.cache.lookup x).isNone)) ≠ []) :
    fetchDexScreenerData net st now mints =
      ⟨fillFromCache
          (processBatches net (chunksOf DEX_BATCH_SIZE mints) ([], st.cache)).2.1
          mints
          (processBatches net (chunksOf DEX_BATCH_SIZE mints) ([], st.cache)).1,
        ⟨(processBatches net (chunksOf DEX_BATCH_SIZE mints) ([], st.cache)).2.1,
          now⟩,
        (processBatches net (chunksOf DEX_BATCH_SIZE mints) ([], st.cache)).2.2⟩ := by
  rw [fetchDexScreenerData, if_neg hm, if_neg hunc]

/-- A `fetchDexScreenerData` run served entirely from the cache: fresh
TTL and every requested mint cached; no network call, state unchanged. -/
theorem fetchDex_cached_run (net : List String → Option (List DexPair))
    (st : DexCacheState) (now : ℤ) (mints : List String) (hm : mints ≠ [])
    (hunc : (if now - st.timestamp > DEX_CACHE_TTL then mints
      else mints.filter (fun x => (st.cache.lookup x).isNone)) = []) :
    fetchDexScreenerData net st now mints =
      ⟨mints.foldl
          (fun r x =>
            match st.cache.lookup x with
            | some tok => alSet x tok r
            | none => r)
          [],
        st, []⟩ := by
  rw [fetchDexScreenerData, if_neg hm, if_pos hunc]

/-- C6 (amended): starting from an empty cache, a request for exactly
`[m]` issues exactly one network batch call (containing `m`), and caches
the listing the provider resolves for `m`; a second request for exactly
`[m]` within the TTL window then issues no network call at all, leaves
the state untouched, and serves the cached entry.  (The unamended claim
fails when the second request also contains an uncached identifier; see
the counterexample.) -/
theorem dexCache_hit_no_network (net : List String → Option (List DexPair))
    (cacheTs t0 t1 : ℤ) (m : String) (pairs : List DexPair) (p : DexPair)
    (hnet : net [m] = some pairs)
    (hbest : (bestPairs pairs).lookup m = some p)
    (httl : t1 - t0 ≤ DEX_CACHE_TTL) :
    (fetchDexScreenerData net ⟨[], cacheTs⟩ t0 [m]).calls = [[m]] ∧
    (fetchDexScreenerData net ⟨[], cacheTs⟩ t0 [m]).result.lookup m =
      some (mkDexToken m p) ∧
    (fetchDexScreenerData net ⟨[], cacheTs⟩ t0 [m]).state.cache.lookup m =
      some (mkDexToken m p) ∧
    (fetchDexScreenerData net ⟨[], cacheTs⟩ t0 [m]).state.timestamp = t0 ∧
    (fetchDexScreenerData net
      (fetchDexScreenerData net ⟨[], cacheTs⟩ t0 [m]).state t1 [m]).calls = [] ∧
    (fetchDexScreenerData net
      (fetchDexScreenerData net ⟨[], cacheTs⟩ t0 [m]).state t1 [m]).result.lookup
        m = some (mkDexToken m p) ∧
    (fetchDexScreenerData net
      (fetchDexScreenerData net ⟨[], cacheTs⟩ t0 [m]).state t1 [m]).state =
      (fetchDexScreenerData net ⟨[], cacheTs⟩ t0 [m]).state := by
  have hm1 : ([m] : List String) ≠ [] := by simp
  have hunc1 : (if t0 - cacheTs > DEX_CACHE_TTL then [m]
      else [m].filter
        (fun x => ((List.lookup x ([] : List (String × DexScreenerToken))).isNone))) ≠
      ([] : List String) := by
    split
    · simp
    · simp [List.lookup]
  have hchunk : chunksOf DEX_BATCH_SIZE [m] = [[m]] := rfl
  have hrun1 := fetchDex_network_run net ⟨[], cacheTs⟩ t0 [m] hm1 hunc1
  rw [hchunk] at hrun1
  rw [processBatches_cons_some net [m] [] ([], []) pairs hnet,
    processBatches_nil] at hrun1
  obtain ⟨hlk1, hlk2⟩ := foldl_applyBest_lookup (bestPairs pairs) [] [] m p
    (bestPairs_keys_nodup pairs) hbest
  have hfill :
      (fillFromCache ((bestPairs pairs).foldl applyBest ([], [])).2 [m]
        ((bestPairs pairs).foldl applyBest ([], [])).1).lookup m =
        some (mkDexToken m p) := by
    simp only [fillFromCache, List.foldl_cons, List.foldl_nil, hlk1,
      Option.isSome_some, if_true]
    try exact hlk1
  rw [hrun1]
  refine ⟨rfl, hfill, hlk2, rfl, ?_, ?_, ?_⟩
  all_goals {
    have hunc2 : (if t1 - t0 > DEX_CACHE_TTL then [m]
        else [m].filter
          (fun x =>
            ((((bestPairs pairs).foldl applyBest ([], [])).2.lookup x).isNone))) =
        ([] : List String) := by
      rw [if_neg (not_lt.mpr httl)]
      simp [hlk2]
    have hrun2 := fetchDex_cached_run net
      ⟨((bestPairs pairs).foldl applyBest ([], [])).2, t0⟩ t1 [m] hm1 hunc2
    simp only at hrun2
    rw [hrun2]
    try simp only [List.foldl_cons, List.foldl_nil, hlk2]
    try first
      | rfl
      | exact alSet_lookup_self m (mkDexToken m p) []
  }

/-- Counterexample to C6 as stated: two requests containing the
identifier `"mintalpha"` occur 100 ms apart (well within the 5-minute
TTL), the first resolves and caches it, yet because the second request
also contains the uncached identifier `"mintbeta"` the batch loop — which
iterates over all requested mints, not just the uncached ones — issues a
second network batch call containing `"mintalpha"`: two outbound batch
calls for that identifier in total, and the second request is not
network-free. -/
theorem dexCache_second_request_refetch :
    (1000100 : ℤ) - 1000000 ≤ DEX_CACHE_TTL ∧
    ((fetchDexScreenerData cxNet ⟨[], 0⟩ 1000000 ["mintalpha"]).calls ++
      (fetchDexScreenerData cxNet
        (fetchDexScreenerData cxNet ⟨[], 0⟩ 1000000 ["mintalpha"]).state
        1000100 ["mintalpha", "mintbeta"]).calls).countP
      (fun b => b.contains "mintalpha") = 2 ∧
    (fetchDexScreenerData cxNet
      (fetchDexScreenerData cxNet ⟨[], 0⟩ 1000000 ["mintalpha"]).state
      1000100 ["mintalpha", "mintbeta"]).calls ≠ [] := by
  decide

/-- Witness for the amended C6: with the concrete network oracle `cxNet`,
a first request for exactly `["mintalpha"]` issues one batch call and a
second one 100 ms later issues none and serves the cached entry. -/
theorem dexCache_hit_no_network_witness :
    cxNet ["mintalpha"] = some [cxPairA] ∧
    (bestPairs [cxPairA]).lookup "mintalpha" = some cxPairA ∧
    ((1000100 : ℤ) - 1000000 ≤ DEX_CACHE_TTL) ∧
    ((fetchDexScreenerData cxNet ⟨[], 0⟩ 1000000 ["mintalpha"]).calls =
        [["mintalpha"]] ∧
      (fetchDexScreenerData cxNet ⟨[], 0⟩ 1000000
          ["mintalpha"]).result.lookup "mintalpha" =
        some (mkDexToken "mintalpha" cxPairA) ∧
      (fetchDexScreenerData cxNet ⟨[], 0⟩ 1000000
          ["mintalpha"]).state.cache.lookup "mintalpha" =
        some (mkDexToken "mintalpha" cxPairA) ∧
      (fetchDexScreenerData cxNet ⟨[], 0⟩ 1000000
          ["mintalpha"]).state.timestamp = 1000000 ∧
      (fetchDexScreenerData cxNet
        (fetchDexScreenerData cxNet ⟨[], 0⟩ 1000000 ["mintalpha"]).state
        1000100 ["mintalpha"]).calls = [] ∧
      (fetchDexScreenerData cxNet
        (fetchDexScreenerData cxNet ⟨[], 0⟩ 1000000 ["mintalpha"]).state
        1000100 ["mintalpha"]).result.lookup "mintalpha" =
        some (mkDexToken "mintalpha" cxPairA) ∧
      (fetchDexScreenerData cxNet
        (fetchDexScreenerData cxNet ⟨[], 0⟩ 1000000 ["mintalpha"]).state
        1000100 ["mintalpha"]).state =
        (fetchDexScreenerData cxNet ⟨[], 0⟩ 1000000 ["mintalpha"]).state) :=
  ⟨by decide, by decide, by decide,
   dexCache_hit_no_network cxNet 0 1000000 1000100 "mintalpha" [cxPairA]
     cxPairA (by decide) (by decide) (by decide)⟩

/-- An account passing the non-zero filter has a non-zero reported
balance and is not an NFT-like placeholder. -/
theorem of_nonZeroFilter {ta : ParsedTokenAccount}
    (h : nonZeroFilter ta = true) :
    uiAmountKey ta ≠ 0 ∧ ¬(ta.decimals = 0 ∧ ta.amount = 1) := by
  by_cases h1 : uiAmountKey ta = 0
  · simp [nonZeroFilter, h1] at h
  · refine ⟨h1, ?_⟩
    intro h2
    simp [nonZeroFilter, h1, h2.1, h2.2] at h

/-- Every holding produced by the token resolver is built from one of
the enumerated accounts that passed the non-zero / non-placeholder
filter. -/
theorem mem_fetchTokenBalances (dex : String → Option DexScreenerToken)
    (helius : String → Option HeliusAssetMeta)
    (tas t2s : List ParsedTokenAccount) (t : TokenBalance)
    (ht : t ∈ fetchTokenBalances dex helius tas t2s) :
    ∃ ta, ta ∈ tas ++ t2s ∧ nonZeroFilter ta = true ∧
      t = buildToken dex helius ta := by
  unfold fetchTokenBalances at ht
  rw [List.mem_insertionSort] at ht
  obtain ⟨ta, hta, rfl⟩ := List.mem_map.mp ht
  have hta2 : ta ∈ ((tas ++ t2s).filter nonZeroFilter).insertionSort uiRank :=
    List.mem_of_mem_take hta
  rw [List.mem_insertionSort, List.mem_filter] at hta2
  exact ⟨ta, hta2.1, hta2.2, rfl⟩

/-- C7: the token resolver returns at most 50 holdings; each of them is
built from an enumerated account with a non-zero reported balance that is
not an NFT placeholder (raw amount 1 with 0 decimals); and the selected
accounts are the top 50 of the filtered accounts ranked by UI amount
(every unselected filtered account has UI amount at most that of every
selected one), with the result a permutation of the holdings built from
the selection. -/
theorem fetchTokenBalances_cap_filter (dex : String → Option DexScreenerToken)
    (helius : String → Option HeliusAssetMeta)
    (tas t2s : List ParsedTokenAccount) :
    (fetchTokenBalances dex helius tas t2s).length ≤ 50 ∧
    (∀ t ∈ fetchTokenBalances dex helius tas t2s,
      ∃ ta, ta ∈ tas ++ t2s ∧ uiAmountKey ta ≠ 0 ∧
        ¬(ta.decimals = 0 ∧ ta.amount = 1) ∧ t = buildToken dex helius ta) ∧
    (∃ sel rest : List ParsedTokenAccount,
      (sel ++ rest).Perm ((tas ++ t2s).filter nonZeroFilter) ∧
      sel.length = min 50 ((tas ++ t2s).filter nonZeroFilter).length ∧
      (∀ a ∈ sel, ∀ b ∈ rest, uiAmountKey b ≤ uiAmountKey a) ∧
      (fetchTokenBalances dex helius tas t2s).Perm
        (sel.map (buildToken dex helius))) := by
  refine ⟨?_, ?_, ?_⟩
  · show (List.insertionSort valueRank _).length ≤ 50
    rw [List.length_insertionSort, List.length_map, List.length_take,
      List.length_insertionSort]
    exact min_le_left _ _
  · intro t ht
    obtain ⟨ta, hmem, hfil, rfl⟩ := mem_fetchTokenBalances dex helius tas t2s t ht
    obtain ⟨hnz, hnft⟩ := of_nonZeroFilter hfil
    exact ⟨ta, hmem, hnz, hnft, rfl⟩
  · refine ⟨(((tas ++ t2s).filter nonZeroFilter).insertionSort uiRank).take 50,
      (((tas ++ t2s).filter nonZeroFilter).insertionSort uiRank).drop 50,
      ?_, ?_, ?_, ?_⟩
    · rw [List.take_append_drop]
      exact List.perm_insertionSort uiRank _
    · rw [List.length_take, List.length_insertionSort]
    · have hsorted : List.Sorted uiRank
          (((tas ++ t2s).filter nonZeroFilter).insertionSort uiRank) :=
        List.sorted_insertionSort uiRank _
      rw [show ((tas ++ t2s).filter nonZeroFilter).insertionSort uiRank =
          (((tas ++ t2s).filter nonZeroFilter).insertionSort uiRank).take 50 ++
          (((tas ++ t2s).filter nonZeroFilter).insertionSort uiRank).drop 50
        from (List.take_append_drop _ _).symm] at hsorted
      exact fun a ha b hb => (List.pairwise_append.mp hsorted).2.2 a ha b hb
    · exact List.perm_insertionSort valueRank _

/-- Witness for C7: with one consistent account and empty enrichment
oracles, the produced holding is a member of the result and originates
from that account. -/
theorem fetchTokenBalances_cap_filter_witness :
    buildToken dexNone heliusNone acctConsistent ∈
      fetchTokenBalances dexNone heliusNone [acctConsistent] [] ∧
    (∃ ta, ta ∈ [acctConsistent] ++ ([] : List ParsedTokenAccount) ∧
      uiAmountKey ta ≠ 0 ∧ ¬(ta.decimals = 0 ∧ ta.amount = 1) ∧
      buildToken dexNone heliusNone acctConsistent =
        buildToken dexNone heliusNone ta) :=
  ⟨by decide,
   (fetchTokenBalances_cap_filter dexNone heliusNone [acctConsistent] []).2.1
     (buildToken dexNone heliusNone acctConsistent) (by decide)⟩

/-- Counterexample to C2 as stated: the resolver copies the provider's
reported `uiAmount` instead of deriving it, so an enumerated account
reporting `uiAmount = 7` with raw amount 2 and 0 decimals produces a
holding whose `uiAmount` (7) differs from `amount / 10^decimals` (2). -/
theorem uiAmount_not_derived :
    buildToken dexNone heliusNone acctMismatch ∈
      fetchTokenBalances dexNone heliusNone [acctMismatch] [] ∧
    (buildToken dexNone heliusNone acctMismatch).uiAmount ≠
      ((buildToken dexNone heliusNone acctMismatch).amount : ℚ) /
        10 ^ (buildToken dexNone heliusNone acctMismatch).decimals := by
  refine ⟨by decide, ?_⟩
  have h1 : (buildToken dexNone heliusNone acctMismatch).uiAmount = 7 := rfl
  have h2 : (buildToken dexNone heliusNone acctMismatch).amount = 2 := rfl
  have h3 : (buildToken dexNone heliusNone acctMismatch).decimals = 0 := rfl
  rw [h1, h2, h3]
  norm_num

/-- C2 (amended): the resolver copies each account's reported `uiAmount`
(absent read as 0), so whenever every enumerated account's reported
`uiAmount` equals `amount / 10^decimals` — which the Solana RPC
guarantees for well-formed responses — every produced holding satisfies
`uiAmount = amount / 10^decimals` exactly. -/
theorem uiAmount_eq_ratio_of_reported (dex : String → Option DexScreenerToken)
    (helius : String → Option HeliusAssetMeta)
    (tas t2s : List ParsedTokenAccount)
    (h : ∀ ta ∈ tas ++ t2s,
      ta.uiAmount.getD 0 = (ta.amount : ℚ) / 10 ^ ta.decimals) :
    ∀ t ∈ fetchTokenBalances dex helius tas t2s,
      t.uiAmount = (t.amount : ℚ) / 10 ^ t.decimals := by
  intro t ht
  obtain ⟨ta, hmem, _, rfl⟩ := mem_fetchTokenBalances dex helius tas t2s t ht
  have hta := h ta hmem
  have h1 : (buildToken dex helius ta).uiAmount = ta.uiAmount.getD 0 := rfl
  have h2 : (buildToken dex helius ta).amount = ta.amount := rfl
  have h3 : (buildToken dex helius ta).decimals = ta.decimals := rfl
  rw [h1, h2, h3]
  exact hta

/-- Witness for the amended C2: one account reporting `uiAmount = 7` with
raw amount 7 and 0 decimals satisfies the consistency hypothesis, and the
resolver's output then satisfies the derived-amount equation. -/
theorem uiAmount_eq_ratio_of_reported_witness :
    (∀ ta ∈ [acctConsistent] ++ ([] : List ParsedTokenAccount),
      ta.uiAmount.getD 0 = (ta.amount : ℚ) / 10 ^ ta.decimals) ∧
    (∀ t ∈ fetchTokenBalances dexNone heliusNone [acctConsistent] [],
      t.uiAmount = (t.amount : ℚ) / 10 ^ t.decimals) := by
  have hh : ∀ ta ∈ [acctConsistent] ++ ([] : List ParsedTokenAccount),
      ta.uiAmount.getD 0 = (ta.amount : ℚ) / 10 ^ ta.decimals := by
    intro ta hta
    have : ta = acctConsistent := by simpa using hta
    subst this
    show (7 : ℚ) = (7 : ℕ) / 10 ^ (0 : ℕ)
    norm_num
  exact ⟨hh, uiAmount_eq_ratio_of_reported dexNone heliusNone
    [acctConsistent] [] hh⟩

/-- C1: every successfully returned snapshot's `totalValueUsd` is exactly
native balance times native price, plus the sum of the token `valueUsd`
fields (absent read as 0), plus the sum of the staked `valueUsd` fields
(absent read as 0). -/
theorem totalValueUsd_eq_components (env : WalletEnv) (input : String)
    (w : WalletData) (tr : List NetCall)
    (h : fetchWalletData env input = (.ok w, tr)) :
    w.totalValueUsd =
      w.solBalance * w.solPriceUsd + tokenValueSum w.tokens +
        stakedValueSum w.stakedTokens := by
  unfold fetchWalletData fetchWalletDataSanitized at h
  by_cases hv : isValidSolanaAddress (sanitizeAddress input) = true
  · rw [if_pos hv] at h
    by_cases ht : env.phase1TimedOut = true
    · rw [if_pos ht] at h
      simp at h
    · rw [if_neg ht] at h
      cases hb : env.balanceResult with
      | error e =>
        rw [hb] at h
        simp at h
      | ok solBalance =>
        rw [hb] at h
        simp only [Prod.mk.injEq, Except.ok.injEq] at h
        obtain ⟨hw, _⟩ := h
        subst hw
        rfl
  · rw [if_neg hv] at h
    simp at h

/-- Witness for C1: a concrete successful run (balance 2 SOL, fallback
price 100, empty collections) whose snapshot satisfies the total-value
equation. -/
theorem totalValueUsd_eq_components_witness :
    ∃ w tr, fetchWalletData envOk SAMPLE_ADDRESS = (.ok w, tr) ∧
      w.totalValueUsd =
        w.solBalance * w.solPriceUsd + tokenValueSum w.tokens +
          stakedValueSum w.stakedTokens := by
  refine ⟨_, _, rfl, ?_⟩
  exact totalValueUsd_eq_components envOk SAMPLE_ADDRESS _ _ rfl

/-- Counterexample to C9 as stated: with no previously cached price, a
provider response that parses but carries no usable price makes
`fetchSolPrice` return 0 — not the hard-coded fallback 100 (and not a
cached price, since none exists). -/
theorem solPrice_unusable_response_zero :
    (fetchSolPrice ⟨0, 0⟩ 1000000 (.ok none)).1 = 0 ∧ (0 : ℚ) ≠ 100 := by
  constructor
  · rfl
  · decide

/-- C9 (amended): `fetchSolPrice` is total (it never rejects); when the
provider fetch or JSON parse throws, it returns the cached price if one
is non-zero and the hard-coded constant 100 otherwise; when the provider
response parses but the price is not positive (and the cache is not
fresh), it returns that non-positive value as-is; and in a run whose
Phase 1 balance succeeds within the deadline, the orchestration always
succeeds with `solPriceUsd` equal to whatever `fetchSolPrice` returned —
the native-price half of Phase 1 never by itself produces a terminal
failure, and the snapshot's price may be the fabricated fallback. -/
theorem fetchSolPrice_fallback :
    (∀ (st : SolPriceState) (now : ℤ),
      (fetchSolPrice st now (.error ())).1 =
        if st.cachedSolPrice ≠ 0 then st.cachedSolPrice else 100) ∧
    (∀ (st : SolPriceState) (now : ℤ) (j : Option ℚ),
      ¬(st.cachedSolPrice > 0 ∧ now - st.solPriceTimestamp < SOL_PRICE_TTL) →
      (fetchSolPrice st now (.ok j)).1 = j.getD 0) ∧
    (∀ (env : WalletEnv) (input : String) (b : ℚ),
      isValidSolanaAddress (sanitizeAddress input) = true →
      env.phase1TimedOut = false →
      env.balanceResult = .ok b →
      ∃ w tr, fetchWalletData env input = (.ok w, tr) ∧
        w.solPriceUsd =
          (fetchSolPrice env.priceState env.priceNow env.priceResp).1) := by
  refine ⟨?_, ?_, ?_⟩
  · intro st now
    by_cases hc : st.cachedSolPrice > 0 ∧ now - st.solPriceTimestamp < SOL_PRICE_TTL
    · rw [fetchSolPrice, if_pos hc, if_pos (ne_of_gt hc.1)]
    · rw [fetchSolPrice, if_neg hc]
  · intro st now j h
    rw [fetchSolPrice, if_neg h]
    dsimp only
    split <;> rfl
  · intro env input b hv ht hb
    have hmain : fetchWalletData env input =
        (.ok ⟨sanitizeAddress input, b,
          (fetchSolPrice env.priceState env.priceNow env.priceResp).1,
          b * (fetchSolPrice env.priceState env.priceNow env.priceResp).1 +
            tokenValueSum (settleD env.tokensResult []) +
            stakedValueSum (settleD env.stakingResult []),
          settleD env.tokensResult [], settleD env.nftsResult [],
          settleD env.txsResult [], settleD env.stakingResult [],
          settleD env.historyResult [], env.nowMs⟩,
         [.phase1, .tokens, .nfts, .transactions, .balanceHistory, .staking]) := by
      unfold fetchWalletData fetchWalletDataSanitized
      rw [if_pos hv, if_neg (by simp [ht])]
      rw [hb]
    exact ⟨_, _, hmain, rfl⟩

/-- Witness for the amended C9: with an empty cache and a throwing
provider the fallback price is the constant 100, and the orchestration
with that fallback still succeeds, stamping it into the snapshot. -/
theorem fetchSolPrice_fallback_witness :
    ((fetchSolPrice ⟨0, 0⟩ 5 (.error ())).1 =
      if (0 : ℚ) ≠ 0 then (0 : ℚ) else 100) ∧
    ∃ w tr, fetchWalletData envOk SAMPLE_ADDRESS = (.ok w, tr) ∧
      w.solPriceUsd =
        (fetchSolPrice envOk.priceState envOk.priceNow envOk.priceResp).1 :=
  ⟨fetchSolPrice_fallback.1 ⟨0, 0⟩ 5,
   fetchSolPrice_fallback.2.2 envOk SAMPLE_ADDRESS 2 (by decide) rfl rfl⟩

/-- A base58 character is not JavaScript whitespace. -/
theorem b58_not_ws (c : Char) (h : isBase58Char c = true) :
    isJsWhitespace c = false := by
  have hmem : c ∈ base58Chars := of_decide_eq_true h
  fin_cases hmem <;> rfl

/-- A JavaScript whitespace character is not base58. -/
theorem ws_not_b58 (c : Char) (h : isJsWhitespace c = true) :
    isBase58Char c = false := by
  by_contra hb
  rw [Bool.not_eq_false] at hb
  rw [b58_not_ws c hb] at h
  cases h

/-- Dropping a prefix of characters that never satisfy the filter leaves
the filtered list unchanged. -/
theorem filter_dropWhile_eq (p q : Char → Bool)
    (hpq : ∀ c, q c = true → p c = false) :
    ∀ l : List Char, (l.dropWhile q).filter p = l.filter p := by
  intro l
  induction l with
  | nil => rfl
  | cons a t ih =>
    by_cases hq : q a = true
    · rw [List.dropWhile_cons]
      rw [if_pos hq, ih]
      rw [List.filter_cons, if_neg (by simp [hpq a hq])]
    · rw [List.dropWhile_cons, if_neg (by simp [hq])]

/-- Sanitization is exactly the removal of every non-base58 character:
the leading `trim` only removes whitespace, which the base58 filter
removes anyway. -/
theorem sanitizeAddress_data (s : String) :
    (sanitizeAddress s).data = s.data.filter isBase58Char := by
  show (jsTrim s.data).filter isBase58Char = s.data.filter isBase58Char
  unfold jsTrim
  rw [List.filter_reverse, filter_dropWhile_eq isBase58Char isJsWhitespace
    ws_not_b58, List.filter_reverse, List.reverse_reverse,
    filter_dropWhile_eq isBase58Char isJsWhitespace ws_not_b58]

/-- Sanitization is idempotent. -/
theorem sanitizeAddress_idem (s : String) :
    sanitizeAddress (sanitizeAddress s) = sanitizeAddress s := by
  apply String.ext
  rw [sanitizeAddress_data, sanitizeAddress_data]
  exact List.filter_eq_self.mpr (fun a ha => (List.mem_filter.mp ha).2)

/-- C10: `fetchWalletData` silently sanitizes its input: sanitization
strips exactly the characters outside the base58 alphabet (whitespace
included); a run on any input equals the run on its sanitized form (the
sanitized form is what is validated and queried); the returned snapshot's
`address` is the sanitized input, not the caller's original; and any two
inputs with the same sanitized form behave identically. -/
theorem sanitize_address_spec :
    (∀ s : String, (sanitizeAddress s).data = s.data.filter isBase58Char) ∧
    (∀ (env : WalletEnv) (input : String),
      fetchWalletData env input = fetchWalletData env (sanitizeAddress input)) ∧
    (∀ (env : WalletEnv) (input : String) (w : WalletData) (tr : List NetCall),
      fetchWalletData env input = (.ok w, tr) →
      w.address = sanitizeAddress input) ∧
    (∀ (env : WalletEnv) (i1 i2 : String),
      sanitizeAddress i1 = sanitizeAddress i2 →
      fetchWalletData env i1 = fetchWalletData env i2) := by
  refine ⟨sanitizeAddress_data, ?_, ?_, ?_⟩
  · intro env input
    unfold fetchWalletData
    rw [sanitizeAddress_idem]
  · intro env input w tr h
    unfold fetchWalletData fetchWalletDataSanitized at h
    by_cases hv : isValidSolanaAddress (sanitizeAddress input) = true
    · rw [if_pos hv] at h
      by_cases ht : env.phase1TimedOut = true
      · rw [if_pos ht] at h
        simp at h
      · rw [if_neg ht] at h
        cases hb : env.balanceResult with
        | error e =>
          rw [hb] at h
          simp at h
        | ok solBalance =>
          rw [hb] at h
          simp only [Prod.mk.injEq, Except.ok.injEq] at h
          obtain ⟨hw, _⟩ := h
          subst hw
          rfl
    · rw [if_neg hv] at h
      simp at h
  · intro env i1 i2 h
    unfold fetchWalletData
    rw [h]

/-- Witness for C10: an input wrapped in whitespace behaves exactly like
the clean address, and the returned snapshot carries the sanitized
address. -/
theorem sanitize_address_spec_witness :
    fetchWalletData envOk (" " ++ SAMPLE_ADDRESS ++ "\n") =
      fetchWalletData envOk SAMPLE_ADDRESS ∧
    ∃ w tr, fetchWalletData envOk (" " ++ SAMPLE_ADDRESS ++ "\n") =
        (.ok w, tr) ∧
      w.address = sanitizeAddress (" " ++ SAMPLE_ADDRESS ++ "\n") := by
  refine ⟨sanitize_address_spec.2.2.2 envOk _ _ (by decide), ?_⟩
  exact ⟨_, _, rfl, sanitize_address_spec.2.2.1 envOk _ _ _ rfl⟩
